import Mathlib

/-!
# Branching decisions of CaDiCaL (`src/decide.cpp`)

A shallow embedding of the decision procedure of the solver: the lookup of the
next decision variable (on the move-to-front queue or in the score structure),
the selection of the decision phase, the termination test `satisfied` and the
orchestrating function `decide`.

Conventions of the embedding.

* `int` values (literals, variable indices, phases, options) are `Int`.  The
  products `phase * idx` are not reduced modulo `2^32`: signed overflow has no
  defined behaviour in C++, and with phases in `{-1, 0, 1}` and `idx >= 1` the
  product never leaves the range of `int`.
* `unsigned int` arithmetic (`select_lsids_based_phase`) is reduced modulo
  `2^32` explicitly.
* `level`, `max_var`, `propagated`, container sizes and the statistics
  counters are never negative in the solver and are `Nat`; the casts
  `(size_t) level` and `(size_t) max_var` are the identity on them.
* `assert`, `LOG`, `START` and `STOP` do not change the state and are left
  out; the asserted conditions are stated as hypotheses where they matter.
* Loops that can fail to terminate take a `fuel` argument and return `none`
  when it runs out.
-/

namespace CaDiCaL

/-! ## Data model -/

/-- Modelled from the spec: the value of an entry of the literal-activity table
`lstab`, a floating activity.  The code only compares two entries with `>`, so
an entry is represented by what that comparison can observe: not-a-number,
the two infinities, or a number. -/
inductive Activity where
  | nan
  | ninf
  | num (q : ℚ)
  | pinf
  deriving DecidableEq

/-- The comparison `a > b` of two floating activities: false as soon as one
side is not-a-number, the order of the extended number line otherwise. -/
def Activity.gt : Activity → Activity → Bool
  | .nan, _ => false
  | _, .nan => false
  | .ninf, _ => false
  | .num _, .ninf => true
  | .num a, .num b => Decidable.decide (b < a)
  | .num _, .pinf => false
  | .pinf, .pinf => false
  | .pinf, _ => true

/-- Modelled from the spec: one entry of the bidirectional link table of the
decision queue (`link (idx).prev`, `link (idx).next`). -/
structure Link where
  prev : Int
  next : Int
  deriving DecidableEq

/-- Modelled from the spec: the decision queue keeps a single cached cursor
`unassigned`. -/
structure Queue where
  unassigned : Int
  deriving DecidableEq

/-- Modelled from the spec: a control-stack record, `Level (decision, trail)`;
`trail` is the trail length at which the level began. -/
structure Level where
  decision : Int
  trail : Nat
  deriving DecidableEq

/-- The two statistics counters touched by `decide.cpp`. -/
structure Stats where
  decisions : Nat
  searched : Nat
  deriving DecidableEq

/-- The options read by `decide.cpp`.  Options are integers, tested for being
non-zero where the code uses them as conditions. -/
structure Options where
  phase : Int
  forcephase : Int
  chronophase : Int
  stabilizephase : Int
  seed : Int
  deriving DecidableEq

/-- The phase tables read by `decide.cpp`, indexed by variable. -/
structure Phases where
  saved : Int → Int
  target : Int → Int
  best : Int → Int
  prev : Int → Int
  min : Int → Int

/-- An invocation of one of the two external collaborators of `decide`. -/
inductive Collab where
  | failing
  | search_assume_decision (lit : Int)
  deriving DecidableEq

/-- The part of the solver state that `decide.cpp` reads or writes.

* `vals` is the value table behind `val (lit)`: negative is false, positive is
  true, zero is unassigned.
* `scores` is the score structure, represented by the order in which
  `front ()` and `pop_front ()` hand out its entries: the head of the list is
  `scores.front ()`, and `pop_front ()` removes it.
* `scoring` is the value of `use_scores ()`.
* `generate_bool seed` is the value of the first `generate_bool ()` of a
  generator constructed as `Random random (seed)`.
* `calls` records, in order, the invocations of the external collaborators
  `failing ()` and `search_assume_decision (lit)`; what they do to the solver
  is outside `decide.cpp`. -/
structure Internal where
  max_var : Nat
  level : Nat
  vals : Int → Int
  assumptions : List Int
  control : List Level
  trail : List Int
  propagated : Nat
  queue : Queue
  links : Int → Link
  scores : List Int
  scoring : Bool
  stable : Bool
  cbt : Bool
  force_saved_phase : Bool
  opts : Options
  phases : Phases
  lstab : Nat → Activity
  generate_bool : Int → Bool
  stats : Stats
  calls : List Collab

/-! ## Helpers that `decide.cpp` calls and that live elsewhere in the solver -/

/-- Modelled from the spec: `val (lit)`, the tri-state variable-value reader. -/
def Internal.val (s : Internal) (lit : Int) : Int := s.vals lit

/-- Modelled from the spec: `link (idx)`, the entry of the link table for the
variable `idx`. -/
def Internal.link (s : Internal) (idx : Int) : Link := s.links idx

/-- Modelled from the spec: `update_queue_unassigned (idx)` updates the cursor
of the decision queue to `idx`. -/
def Internal.update_queue_unassigned (s : Internal) (idx : Int) : Internal :=
  { s with queue := { s.queue with unassigned := idx } }

/-- Modelled from the spec: `use_scores ()`, the runtime mode flag that tells
whether activity-based scoring or the move-to-front queue is in use. -/
def Internal.use_scores (s : Internal) : Bool := s.scoring

/-- Modelled from the spec: `failing ()`, the external collaborator that
records an assumption failure.  Only the invocation is recorded. -/
def Internal.failing (s : Internal) : Internal :=
  { s with calls := s.calls ++ [Collab.failing] }

/-- Modelled from the spec: `search_assume_decision (lit)`, the external
collaborator that commits a decision literal.  Only the invocation and its
argument are recorded. -/
def Internal.search_assume_decision (s : Internal) (lit : Int) : Internal :=
  { s with calls := s.calls ++ [Collab.search_assume_decision lit] }

/-! ## `decide.cpp` -/

/-- The loop of `next_decision_variable_on_queue`:
`while (val (res)) res = link (res).prev, searched++;`.  Returns the final
values of `res` and `searched`, or `none` when the fuel runs out. -/
def Internal.queue_search (s : Internal) : Nat → Int → Nat → Option (Int × Nat)
  | 0, _, _ => none
  | fuel + 1, res, searched =>
    if s.val res ≠ 0 then s.queue_search fuel (s.link res).prev (searched + 1)
    else some (res, searched)

/-- `Internal::next_decision_variable_on_queue`. -/
def Internal.next_decision_variable_on_queue (s : Internal) (fuel : Nat) :
    Option (Int × Internal) :=
  match s.queue_search fuel s.queue.unassigned 0 with
  | none => none
  | some (res, searched) =>
    if searched ≠ 0 then
      let s1 := { s with stats := { s.stats with searched := s.stats.searched + searched } }
      some (res, s1.update_queue_unassigned res)
    else
      some (res, s)

/-- The loop of `next_decision_variable_with_best_score` over the score
structure: `res = scores.front (); if (!val (res)) break; scores.pop_front ();`.
Returns `res` and what is left of the structure; `front ()` of an empty
structure has no result. -/
def best_score_loop (vals : Int → Int) : List Int → Option (Int × List Int)
  | [] => none
  | res :: rest =>
    if vals res = 0 then some (res, res :: rest) else best_score_loop vals rest

/-- `Internal::next_decision_variable_with_best_score`. -/
def Internal.next_decision_variable_with_best_score (s : Internal) :
    Option (Int × Internal) :=
  match best_score_loop s.vals s.scores with
  | none => none
  | some (res, scores) => some (res, { s with scores := scores })

/-- `Internal::next_decision_variable`. -/
def Internal.next_decision_variable (s : Internal) (fuel : Nat) :
    Option (Int × Internal) :=
  if s.use_scores then s.next_decision_variable_with_best_score
  else s.next_decision_variable_on_queue fuel

/-- `Internal::select_lsids_based_phase`.  `pos` and `neg` are computed in
`unsigned int`, that is modulo `2^32`. -/
def Internal.select_lsids_based_phase (s : Internal) (idx : Int) : Int :=
  let pos : Nat := ((2 * idx) % 4294967296).toNat
  let neg : Nat := ((2 * idx + 1) % 4294967296).toNat
  if (s.lstab pos).gt (s.lstab neg) then 1 else -1

/-- `Internal::decide_cbt_phase`.  The seven tests on `heuristic` are
independent statements, executed one after the other. -/
def Internal.decide_cbt_phase (s : Internal) (idx : Int) (_target : Bool) : Int :=
  let phase0 : Int := 0
  let heuristic : Int := s.opts.chronophase
  let initial_phase : Int := if s.opts.phase ≠ 0 then 1 else -1
  let phase1 := if heuristic = 1 then s.select_lsids_based_phase idx else phase0
  let phase2 := if heuristic = 2 then (if s.generate_bool s.opts.seed then -1 else 1) else phase1
  let phase3 := if heuristic = 3 then -1 else phase2
  let phase4 := if heuristic = 4 then s.phases.target idx else phase3
  let phase5 := if heuristic = 5 then s.phases.best idx else phase4
  let phase6 := if heuristic = 6 then s.phases.prev idx else phase5
  let phase7 := if heuristic = 7 then s.phases.min idx else phase6
  let phase8 := if phase7 = 0 then initial_phase else phase7
  phase8 * idx

/-- `Internal::decide_phase`. -/
def Internal.decide_phase (s : Internal) (idx : Int) (target : Bool) : Int :=
  let initial_phase : Int := if s.opts.phase ≠ 0 then 1 else -1
  let phase0 : Int := 0
  if s.cbt ∧ s.opts.chronophase > 0 then s.decide_cbt_phase idx target
  else
    let phase1 := if s.force_saved_phase then s.phases.saved idx else phase0
    let phase2 := if phase1 = 0 ∧ s.opts.forcephase ≠ 0 then initial_phase else phase1
    let phase3 := if phase2 = 0 ∧ target then s.phases.target idx else phase2
    let phase4 := if phase3 = 0 then s.phases.saved idx else phase3
    let phase5 := if phase4 = 0 then initial_phase else phase4
    phase5 * idx

/-- `Internal::likely_phase`. -/
def Internal.likely_phase (s : Internal) (idx : Int) : Int := s.decide_phase idx false

/-! ### The phase selection with explicit state passing

`select_lsids_based_phase`, `decide_cbt_phase`, `decide_phase` and
`likely_phase` are member functions of the solver.  Below each of them is
translated a second time, now as a call on the solver state: the translation
takes the state before the call and returns the result of the call together
with the state after it.  A call of another member function hands its state on
to the statements that follow it, and tables are read in the state of the
statement that reads them. -/

/-- `Internal::select_lsids_based_phase` with explicit state passing. -/
def Internal.select_lsids_based_phase_call (s : Internal) (idx : Int) : Int × Internal :=
  let pos : Nat := ((2 * idx) % 4294967296).toNat
  let neg : Nat := ((2 * idx + 1) % 4294967296).toNat
  if (s.lstab pos).gt (s.lstab neg) then (1, s) else (-1, s)

/-- `Internal::decide_cbt_phase` with explicit state passing.  Each `r` is the
value of `phase` and the solver state after one of the statements; the
generator `random` is a local object constructed from `opts.seed`. -/
def Internal.decide_cbt_phase_call (s : Internal) (idx : Int) (_target : Bool) :
    Int × Internal :=
  let phase0 : Int := 0
  let heuristic : Int := s.opts.chronophase
  let initial_phase : Int := if s.opts.phase ≠ 0 then 1 else -1
  let seed : Int := s.opts.seed
  let r1 : Int × Internal :=
    if heuristic = 1 then s.select_lsids_based_phase_call idx else (phase0, s)
  let r2 : Int × Internal :=
    if heuristic = 2 then ((if r1.2.generate_bool seed then -1 else 1), r1.2) else r1
  let r3 : Int × Internal := if heuristic = 3 then (-1, r2.2) else r2
  let r4 : Int × Internal := if heuristic = 4 then (r3.2.phases.target idx, r3.2) else r3
  let r5 : Int × Internal := if heuristic = 5 then (r4.2.phases.best idx, r4.2) else r4
  let r6 : Int × Internal := if heuristic = 6 then (r5.2.phases.prev idx, r5.2) else r5
  let r7 : Int × Internal := if heuristic = 7 then (r6.2.phases.min idx, r6.2) else r6
  let r8 : Int × Internal := if r7.1 = 0 then (initial_phase, r7.2) else r7
  (r8.1 * idx, r8.2)

/-- `Internal::decide_phase` with explicit state passing. -/
def Internal.decide_phase_call (s : Internal) (idx : Int) (target : Bool) :
    Int × Internal :=
  let initial_phase : Int := if s.opts.phase ≠ 0 then 1 else -1
  let phase0 : Int := 0
  if s.cbt ∧ s.opts.chronophase > 0 then s.decide_cbt_phase_call idx target
  else
    let phase1 := if s.force_saved_phase then s.phases.saved idx else phase0
    let phase2 := if phase1 = 0 ∧ s.opts.forcephase ≠ 0 then initial_phase else phase1
    let phase3 := if phase2 = 0 ∧ target then s.phases.target idx else phase2
    let phase4 := if phase3 = 0 then s.phases.saved idx else phase3
    let phase5 := if phase4 = 0 then initial_phase else phase4
    (phase5 * idx, s)

/-- `Internal::likely_phase` with explicit state passing. -/
def Internal.likely_phase_call (s : Internal) (idx : Int) : Int × Internal :=
  s.decide_phase_call idx false

/-- `Internal::satisfied`. -/
def Internal.satisfied (s : Internal) : Bool :=
  let assigned := s.trail.length
  if s.propagated < assigned then false
  else if s.level < s.assumptions.length then false
  else Decidable.decide (assigned = s.max_var)

/-- `Internal::decide`.  The result is the returned status together with the
state after the call, or `none` when the lookup of the decision variable has no
result. -/
def Internal.decide (s : Internal) (fuel : Nat) : Option (Int × Internal) :=
  let res : Int := 0
  if h : s.level < s.assumptions.length then
    let lit := s.assumptions[s.level]
    let tmp := s.val lit
    if tmp < 0 then
      some (20, s.failing)
    else if tmp > 0 then
      some (res, { s with level := s.level + 1,
                          control := s.control ++ [Level.mk 0 s.trail.length] })
    else
      some (res, s.search_assume_decision lit)
  else
    let s1 := { s with stats := { s.stats with decisions := s.stats.decisions + 1 } }
    match s1.next_decision_variable fuel with
    | none => none
    | some (idx, s2) =>
      let target := Decidable.decide (s2.opts.stabilizephase ≠ 0) && s2.stable
      let decision := s2.decide_phase idx target
      some (res, s2.search_assume_decision decision)

/-! ## Notions used to state the properties -/

/-- The variable reached from `v` after `k` steps along the `prev` links of the
decision queue. -/
def Internal.prev_chain (s : Internal) : Nat → Int → Int
  | 0, v => v
  | k + 1, v => s.prev_chain k (s.link v).prev

/-- The lookup of the decision variable has something to find: in score mode
the score structure holds an unassigned variable, in queue mode an unassigned
variable is reached from the cursor in fewer than `fuel` steps along `prev`. -/
def Internal.decision_available (s : Internal) (fuel : Nat) : Prop :=
  (s.use_scores = true ∧ ∃ v ∈ s.scores, s.val v = 0) ∨
  (s.use_scores = false ∧ ∃ k < fuel, s.val (s.prev_chain k s.queue.unassigned) = 0)

instance (s : Internal) (fuel : Nat) : Decidable (s.decision_available fuel) := by
  unfold Internal.decision_available
  infer_instance

/-- Every entry of the five phase tables is `-1`, `0` or `1`. -/
def Phases.ternary (p : Phases) : Prop :=
  ∀ t ∈ [p.saved, p.target, p.best, p.prev, p.min], ∀ i : Int, t i = -1 ∨ t i = 0 ∨ t i = 1

/-- The first non-zero value of a list of candidate phases (`0` if all are
zero): "first non-zero wins". -/
def first_non_zero : List Int → Int
  | [] => 0
  | p :: ps => if p ≠ 0 then p else first_non_zero ps

/-- The baseline phase resolution in the words of the specification: the
candidates, in order, are `saved[idx]` if `force_saved_phase` is set, the
constant initial polarity if `opts.forcephase` is set, `target[idx]` if the
target phase is requested, `saved[idx]`, and the constant initial polarity; a
candidate whose condition does not hold counts as zero. -/
def Internal.spec_baseline_phase (s : Internal) (idx : Int) (target : Bool) : Int :=
  let initial : Int := if s.opts.phase ≠ 0 then 1 else -1
  first_non_zero
    [ if s.force_saved_phase then s.phases.saved idx else 0,
      if s.opts.forcephase ≠ 0 then initial else 0,
      if target then s.phases.target idx else 0,
      s.phases.saved idx,
      initial ]

/-- The state after `stats.decisions++`, the first statement of the
genuine-decision path of `decide`. -/
def Internal.decision_counted (s : Internal) : Internal :=
  { s with stats := { s.stats with decisions := s.stats.decisions + 1 } }

/-- The score structure hands out its entries by activity: at every stage,
that is after any number of `pop_front ()`, `front ()` is an entry of maximum
activity among the entries still in the structure.  `score` gives the
activity of a variable. -/
def front_maximal {α : Type} [Preorder α] (score : Int → α) : List Int → Prop
  | [] => True
  | x :: rest => (∀ y ∈ rest, score y ≤ score x) ∧ front_maximal score rest

/-- The trail lists exactly the assigned variables: the variables of its
literals are pairwise different, each of them lies in `[1, max_var]` and is
assigned, and every assigned variable of `[1, max_var]` is the variable of a
literal of the trail. -/
def Internal.trail_lists_assigned (s : Internal) : Prop :=
  (s.trail.map Int.natAbs).Nodup ∧
  (∀ lit ∈ s.trail,
    1 ≤ lit.natAbs ∧ lit.natAbs ≤ s.max_var ∧ s.val (lit.natAbs : Int) ≠ 0) ∧
  (∀ v : Nat, 1 ≤ v → v ≤ s.max_var → s.val (v : Int) ≠ 0 →
    v ∈ s.trail.map Int.natAbs)

/-! ## Concrete states -/

/-- Three variables, all unassigned, no assumptions, queue order 3, 2, 1 with
the cursor on 3, queue mode, all phase tables unset, initial polarity
positive. -/
def queue_state : Internal where
  max_var := 3
  level := 0
  vals := fun _ => 0
  assumptions := []
  control := []
  trail := []
  propagated := 0
  queue := ⟨3⟩
  links := fun v => ⟨v - 1, if v = 3 then 0 else v + 1⟩
  scores := [1, 2, 3]
  scoring := false
  stable := false
  cbt := false
  force_saved_phase := false
  opts := ⟨1, 0, 0, 0, 0⟩
  phases := ⟨fun _ => 0, fun _ => 0, fun _ => 0, fun _ => 0, fun _ => 0⟩
  lstab := fun _ => Activity.num 0
  generate_bool := fun _ => true
  stats := ⟨0, 0⟩
  calls := []

/-- Assumptions `[2, -1]` at level 0 with variable 2 assigned false. -/
def assumption_false_state : Internal :=
  { queue_state with
    assumptions := [2, -1]
    vals := fun l => if l = 2 then -1 else if l = -2 then 1 else 0
    trail := [-2]
    propagated := 1 }

/-- Assumptions `[2, -1]` at level 0 with variable 2 assigned true. -/
def assumption_true_state : Internal :=
  { queue_state with
    assumptions := [2, -1]
    vals := fun l => if l = 2 then 1 else if l = -2 then -1 else 0
    trail := [2]
    propagated := 1 }

/-- The state `queue_state` after the first genuine decision has been counted
and looked up: the decision counter is 1, nothing else has changed. -/
def queue_state_counted : Internal :=
  { queue_state with stats := ⟨1, 0⟩ }

/-- A state for the phase selection: chronological backtracking active in
mode 4, initial polarity negative, `saved[3] = -1`, `target[3] = 1`,
`best[2] = -1`, `prev[2] = 1`, `min[1] = -1`, all other entries unset; the
positive literal of variable 2 has the larger activity, the literals of the
other variables have equal activities. -/
def phase_state : Internal :=
  { queue_state with
    cbt := true
    opts := ⟨0, 0, 4, 0, 0⟩
    phases := ⟨fun i => if i = 3 then -1 else 0, fun i => if i = 3 then 1 else 0,
               fun i => if i = 2 then -1 else 0, fun i => if i = 2 then 1 else 0,
               fun i => if i = 1 then -1 else 0⟩
    lstab := fun n => if n = 4 then Activity.num 2 else Activity.num 1 }

/-- Three variables in queue order 3, 2, 1 with the cursor on 3; variable 3 is
assigned true and variable 2 false, variable 1 is unassigned. -/
def walk_state : Internal :=
  { queue_state with
    vals := fun l => if l = 3 then 1 else if l = -3 then -1
                     else if l = 2 then -1 else if l = -2 then 1 else 0
    trail := [3, -2]
    propagated := 2 }

/-- The state `walk_state` in score mode; the score structure hands out the
variables in the order 3, 1, 2. -/
def score_state : Internal :=
  { walk_state with
    scoring := true
    scores := [3, 1, 2] }

/-- The activities that go with `score_state`: 5 for variable 3, 4 for
variable 1, 1 for every other variable. -/
def example_score (v : Int) : Int :=
  if v = 3 then 5 else if v = 1 then 4 else 1

/-- One variable, assigned true by the only literal of the trail, which has not
been propagated yet; no assumptions. -/
def pending_state : Internal :=
  { queue_state with
    max_var := 1
    vals := fun l => if l = 1 then 1 else if l = -1 then -1 else 0
    trail := [1]
    propagated := 0
    queue := ⟨1⟩
    scores := [1] }

/-- Assumptions `[2, -1]` at level 1: the first assumption has been decided,
variable 2 is true, and the literal `-1` of the second one is unassigned. -/
def assumption_open_state : Internal :=
  { queue_state with
    assumptions := [2, -1]
    level := 1
    control := [⟨2, 0⟩]
    vals := fun l => if l = 2 then 1 else if l = -2 then -1 else 0
    trail := [2]
    propagated := 1 }

/-! ## Lemmas on the lookup of the decision variable -/

theorem queue_search_val (s : Internal) :
    ∀ (fuel : Nat) (res : Int) (n : Nat) (v : Int) (m : Nat),
      s.queue_search fuel res n = some (v, m) → s.val v = 0 := by
  intro fuel
  induction fuel with
  | zero => intro res n v m h; simp [Internal.queue_search] at h
  | succ fuel ih =>
    intro res n v m h
    unfold Internal.queue_search at h
    by_cases hv : s.val res = 0
    · simp [hv] at h
      rw [← h.1]; exact hv
    · simp [hv] at h
      exact ih _ _ _ _ h

theorem queue_search_some (s : Internal) :
    ∀ (fuel : Nat) (res : Int) (n : Nat),
      (∃ k < fuel, s.val (s.prev_chain k res) = 0) →
      ∃ v m, s.queue_search fuel res n = some (v, m) := by
  intro fuel
  induction fuel with
  | zero => rintro res n ⟨k, hk, _⟩; omega
  | succ fuel ih =>
    rintro res n ⟨k, hk, hz⟩
    unfold Internal.queue_search
    by_cases hv : s.val res = 0
    · exact ⟨res, n, by simp [hv]⟩
    · simp only [ne_eq, hv, not_false_eq_true, if_true]
      cases k with
      | zero => exact absurd hz hv
      | succ k => exact ih _ _ ⟨k, by omega, hz⟩

theorem best_score_loop_val (vals : Int → Int) :
    ∀ (l : List Int) (v : Int) (rest : List Int),
      best_score_loop vals l = some (v, rest) → vals v = 0 := by
  intro l
  induction l with
  | nil => intro v rest h; simp [best_score_loop] at h
  | cons a l ih =>
    intro v rest h
    unfold best_score_loop at h
    by_cases ha : vals a = 0
    · simp [ha] at h
      rw [← h.1]; exact ha
    · simp [ha] at h
      exact ih _ _ h

theorem best_score_loop_some (vals : Int → Int) :
    ∀ (l : List Int), (∃ v ∈ l, vals v = 0) →
      ∃ v rest, best_score_loop vals l = some (v, rest) := by
  intro l
  induction l with
  | nil => rintro ⟨v, hv, _⟩; simp at hv
  | cons a l ih =>
    rintro ⟨v, hv, hz⟩
    unfold best_score_loop
    by_cases ha : vals a = 0
    · exact ⟨a, a :: l, by simp [ha]⟩
    · simp only [ha, if_false]
      rcases List.mem_cons.mp hv with rfl | hmem
      · exact absurd hz ha
      · exact ih ⟨v, hmem, hz⟩

/-- What `next_decision_variable` may change: the score structure, the queue
cursor and the counter `stats.searched`; the variable it returns is
unassigned. -/
theorem next_decision_variable_frame (s : Internal) (fuel : Nat) (v : Int) (s2 : Internal)
    (h : s.next_decision_variable fuel = some (v, s2)) :
    s.val v = 0 ∧
    s2 = { s with scores := s2.scores, queue := s2.queue,
                  stats := { s.stats with searched := s2.stats.searched } } := by
  unfold Internal.next_decision_variable at h
  by_cases hs : s.use_scores = true
  · rw [if_pos hs] at h
    unfold Internal.next_decision_variable_with_best_score at h
    cases hl : best_score_loop s.vals s.scores with
    | none => simp [hl] at h
    | some p =>
      obtain ⟨res, rest⟩ := p
      simp only [hl, Option.some.injEq, Prod.mk.injEq] at h
      obtain ⟨h1, h2⟩ := h
      subst h1 h2
      exact ⟨best_score_loop_val _ _ _ _ hl, rfl⟩
  · rw [if_neg hs] at h
    unfold Internal.next_decision_variable_on_queue at h
    cases hq : s.queue_search fuel s.queue.unassigned 0 with
    | none => simp [hq] at h
    | some p =>
      obtain ⟨res, searched⟩ := p
      simp only [hq] at h
      by_cases hz : searched = 0
      · rw [if_neg (by simpa using hz)] at h
        simp only [Option.some.injEq, Prod.mk.injEq] at h
        obtain ⟨h1, h2⟩ := h
        subst h1 h2
        exact ⟨queue_search_val _ _ _ _ _ _ hq, rfl⟩
      · rw [if_pos (by simpa using hz)] at h
        simp only [Option.some.injEq, Prod.mk.injEq] at h
        obtain ⟨h1, h2⟩ := h
        subst h1 h2
        exact ⟨queue_search_val _ _ _ _ _ _ hq, rfl⟩

/-- When a decision is available, `next_decision_variable` returns. -/
theorem next_decision_variable_some (s : Internal) (fuel : Nat)
    (h : s.decision_available fuel) :
    ∃ v s2, s.next_decision_variable fuel = some (v, s2) := by
  unfold Internal.next_decision_variable
  rcases h with ⟨hs, hv⟩ | ⟨hs, hk⟩
  · obtain ⟨v, rest, hl⟩ := best_score_loop_some s.vals s.scores hv
    rw [if_pos hs]
    unfold Internal.next_decision_variable_with_best_score
    rw [hl]
    exact ⟨_, _, rfl⟩
  · obtain ⟨v, m, hq⟩ := queue_search_some s fuel s.queue.unassigned 0 hk
    rw [if_neg (by simp [hs])]
    unfold Internal.next_decision_variable_on_queue
    rw [hq]
    dsimp only
    by_cases hm : m = 0
    · rw [if_neg (not_not.mpr hm)]
      exact ⟨_, _, rfl⟩
    · rw [if_pos hm]
      exact ⟨_, _, rfl⟩

/-- The `prev` chain only depends on the link table. -/
theorem prev_chain_congr (s t : Internal) (hl : t.links = s.links) :
    ∀ (k : Nat) (v : Int), t.prev_chain k v = s.prev_chain k v := by
  intro k
  induction k with
  | zero => intro v; rfl
  | succ k ih =>
    intro v
    unfold Internal.prev_chain
    rw [ih]
    unfold Internal.link
    rw [hl]

/-- Whether a decision is available only depends on the assignment, the link
table, the queue cursor, the score structure and the mode flag. -/
theorem decision_available_congr (s t : Internal) (fuel : Nat)
    (hv : t.vals = s.vals) (hl : t.links = s.links) (hq : t.queue = s.queue)
    (hsc : t.scores = s.scores) (hm : t.scoring = s.scoring) :
    t.decision_available fuel ↔ s.decision_available fuel := by
  unfold Internal.decision_available Internal.use_scores Internal.val
  simp only [hv, hq, hsc, hm, prev_chain_congr s t hl]

/-- The phase selection does not read what `next_decision_variable` and the
decision counter change. -/
theorem decide_phase_frame (s t : Internal) (idx : Int) (target : Bool)
    (h : t = { s with scores := t.scores, queue := t.queue, stats := t.stats }) :
    t.decide_phase idx target = s.decide_phase idx target := by
  rw [h]
  rfl

/-- With phase tables over `{-1, 0, 1}` the chronological phase selection
returns the variable or its negation. -/
theorem decide_cbt_phase_sign (s : Internal) (idx : Int) (target : Bool)
    (h : s.phases.ternary) :
    s.decide_cbt_phase idx target = idx ∨ s.decide_cbt_phase idx target = -idx := by
  have h4 := h s.phases.target (by simp) idx
  have h5 := h s.phases.best (by simp) idx
  have h6 := h s.phases.prev (by simp) idx
  have h7 := h s.phases.min (by simp) idx
  have key : ∀ p : Int, p = 1 ∨ p = -1 → p * idx = idx ∨ p * idx = -idx := by
    rintro p (rfl | rfl)
    · left; ring
    · right; ring
  have hl : s.select_lsids_based_phase idx = 1 ∨ s.select_lsids_based_phase idx = -1 := by
    unfold Internal.select_lsids_based_phase
    dsimp only
    split_ifs
    · exact Or.inl rfl
    · exact Or.inr rfl
  unfold Internal.decide_cbt_phase
  refine key _ ?_
  generalize s.select_lsids_based_phase idx = l at hl
  generalize s.phases.target idx = t4 at h4
  generalize s.phases.best idx = t5 at h5
  generalize s.phases.prev idx = t6 at h6
  generalize s.phases.min idx = t7 at h7
  generalize s.opts.chronophase = c
  by_cases c7 : c = 7
  · subst c7; simp only [if_true]; split_ifs <;> omega
  rw [if_neg c7]
  by_cases c6 : c = 6
  · subst c6; simp only [if_true]; split_ifs <;> omega
  rw [if_neg c6]
  by_cases c5 : c = 5
  · subst c5; simp only [if_true]; split_ifs <;> omega
  rw [if_neg c5]
  by_cases c4 : c = 4
  · subst c4; simp only [if_true]; split_ifs <;> omega
  rw [if_neg c4]
  by_cases c3 : c = 3
  · subst c3; simp only [if_true]; split_ifs <;> omega
  rw [if_neg c3]
  by_cases c2 : c = 2
  · subst c2; simp only [if_true]; split_ifs <;> omega
  rw [if_neg c2]
  split_ifs <;> omega

/-- With phase tables over `{-1, 0, 1}` the phase selection returns the variable
or its negation. -/
theorem decide_phase_sign (s : Internal) (idx : Int) (target : Bool)
    (h : s.phases.ternary) :
    s.decide_phase idx target = idx ∨ s.decide_phase idx target = -idx := by
  have h1 := h s.phases.saved (by simp) idx
  have h2 := h s.phases.target (by simp) idx
  have key : ∀ p : Int, p = 1 ∨ p = -1 → p * idx = idx ∨ p * idx = -idx := by
    rintro p (rfl | rfl)
    · left; ring
    · right; ring
  unfold Internal.decide_phase
  by_cases hc : s.cbt = true ∧ s.opts.chronophase > 0
  · rw [if_pos hc]
    exact decide_cbt_phase_sign s idx target h
  · rw [if_neg hc]
    apply key
    dsimp only
    split_ifs <;> omega

/-- `decide` returns on the assumption path, and on the genuine-decision path
as soon as the lookup of the decision variable has something to find. -/
theorem decide_some (s : Internal) (fuel : Nat)
    (hav : s.level < s.assumptions.length ∨ s.decision_available fuel) :
    ∃ r, s.decide fuel = some r := by
  unfold Internal.decide
  by_cases h : s.level < s.assumptions.length
  · simp only [h, dite_true]
    split_ifs <;> exact ⟨_, rfl⟩
  · simp only [h, dite_false]
    have hd : s.decision_available fuel := hav.resolve_left h
    obtain ⟨v, s2, hn⟩ := next_decision_variable_some
      { s with stats := { s.stats with decisions := s.stats.decisions + 1 } } fuel
      ((decision_available_congr s
        { s with stats := { s.stats with decisions := s.stats.decisions + 1 } }
        fuel rfl rfl rfl rfl rfl).mpr hd)
    rw [hn]
    exact ⟨_, rfl⟩

/-- The comparison `>` of activities is irreflexive. -/
theorem Activity.gt_self (a : Activity) : a.gt a = false := by
  cases a <;> simp [Activity.gt]

/-- Outside the chronological mode `decide_phase` is the baseline resolution
"first non-zero wins" of the specification. -/
theorem decide_phase_baseline_resolution (s : Internal) (idx : Int) (target : Bool)
    (h : ¬ (s.cbt = true ∧ s.opts.chronophase > 0)) :
    s.decide_phase idx target = s.spec_baseline_phase idx target * idx := by
  unfold Internal.decide_phase Internal.spec_baseline_phase
  rw [if_neg h]
  dsimp only [first_non_zero]
  congr 1
  cases s.force_saved_phase <;> cases target <;>
    by_cases h1 : s.phases.saved idx = 0 <;>
    by_cases h2 : s.opts.forcephase = 0 <;>
    by_cases h3 : s.opts.phase = 0 <;>
    by_cases h4 : s.phases.target idx = 0 <;>
    simp [h1, h2, h3, h4]

/-- The queue loop stops at the first unassigned variable of the `prev` chain
and counts the steps that lead to it. -/
theorem queue_search_first (s : Internal) :
    ∀ (fuel : Nat) (res : Int) (n k : Nat), k < fuel →
      s.val (s.prev_chain k res) = 0 →
      (∀ j < k, s.val (s.prev_chain j res) ≠ 0) →
      s.queue_search fuel res n = some (s.prev_chain k res, n + k) := by
  intro fuel
  induction fuel with
  | zero => intro res n k hk; omega
  | succ fuel ih =>
    intro res n k hk hz hmin
    unfold Internal.queue_search
    cases k with
    | zero =>
      have hv : s.val res = 0 := hz
      rw [if_neg (not_not.mpr hv)]
      rfl
    | succ k =>
      have hv : s.val res ≠ 0 := hmin 0 (by omega)
      rw [if_pos hv]
      have hrec := ih (s.link res).prev (n + 1) k (by omega) hz
        (fun j hj => hmin (j + 1) (by omega))
      rw [hrec]
      have hn : n + 1 + k = n + (k + 1) := by omega
      rw [hn]
      rfl

/-- The result of `next_decision_variable_on_queue` when the first unassigned
variable of the `prev` chain is reached after `k` steps. -/
theorem on_queue_first (s : Internal) (fuel k : Nat) (hk : k < fuel)
    (hz : s.val (s.prev_chain k s.queue.unassigned) = 0)
    (hmin : ∀ j < k, s.val (s.prev_chain j s.queue.unassigned) ≠ 0) :
    s.next_decision_variable_on_queue fuel =
      some (s.prev_chain k s.queue.unassigned,
        if k ≠ 0 then
          { s with stats := { s.stats with searched := s.stats.searched + k },
                   queue := { s.queue with
                              unassigned := s.prev_chain k s.queue.unassigned } }
        else s) := by
  unfold Internal.next_decision_variable_on_queue
  rw [queue_search_first s fuel s.queue.unassigned 0 k hk hz hmin]
  dsimp only
  rw [Nat.zero_add]
  by_cases h0 : k = 0
  · rw [if_neg (not_not.mpr h0), if_neg (not_not.mpr h0)]
  · rw [if_pos h0, if_pos h0]
    rfl

/-- A call of `next_decision_variable_on_queue` with the cursor on an unassigned
variable returns that variable and changes nothing. -/
theorem on_queue_at_unassigned (s : Internal) (fuel : Nat) (hfuel : 0 < fuel)
    (hz : s.val s.queue.unassigned = 0) :
    s.next_decision_variable_on_queue fuel = some (s.queue.unassigned, s) := by
  have h := on_queue_first s fuel 0 hfuel hz (fun j hj => absurd hj (Nat.not_lt_zero j))
  rw [h]
  rfl

/-- An unassigned variable on the `prev` chain gives a first one. -/
theorem first_unassigned_on_chain (s : Internal) (res : Int) (fuel : Nat)
    (h : ∃ k < fuel, s.val (s.prev_chain k res) = 0) :
    ∃ k < fuel, s.val (s.prev_chain k res) = 0 ∧
      ∀ j < k, s.val (s.prev_chain j res) ≠ 0 := by
  classical
  have hex : ∃ k, k < fuel ∧ s.val (s.prev_chain k res) = 0 := by
    obtain ⟨k, hk, hz⟩ := h
    exact ⟨k, hk, hz⟩
  refine ⟨Nat.find hex, (Nat.find_spec hex).1, (Nat.find_spec hex).2, ?_⟩
  intro j hj hzero
  exact Nat.find_min hex hj ⟨lt_trans hj (Nat.find_spec hex).1, hzero⟩

/-- What the score loop pops: a prefix of assigned entries; it leaves the rest
of the structure, whose front is the returned, unassigned variable. -/
theorem best_score_loop_split (vals : Int → Int) :
    ∀ (l : List Int) (v : Int) (rest : List Int),
      best_score_loop vals l = some (v, rest) →
      ∃ removed tail, l = removed ++ rest ∧ rest = v :: tail ∧
        (∀ u ∈ removed, vals u ≠ 0) ∧ vals v = 0 := by
  intro l
  induction l with
  | nil => intro v rest h; simp [best_score_loop] at h
  | cons a l ih =>
    intro v rest h
    unfold best_score_loop at h
    by_cases ha : vals a = 0
    · rw [if_pos ha] at h
      simp only [Option.some.injEq, Prod.mk.injEq] at h
      obtain ⟨h1, h2⟩ := h
      subst h1
      exact ⟨[], l, by rw [← h2]; rfl, h2.symm, by simp, ha⟩
    · rw [if_neg ha] at h
      obtain ⟨removed, tail, h1, h2, h3, h4⟩ := ih v rest h
      refine ⟨a :: removed, tail, by rw [h1]; rfl, h2, ?_, h4⟩
      intro u hu
      rcases List.mem_cons.mp hu with rfl | hu
      · exact ha
      · exact h3 u hu

/-- The order by activity is kept by what is left after popping entries. -/
theorem front_maximal_suffix {α : Type} [Preorder α] (score : Int → α) :
    ∀ (removed rest : List Int), front_maximal score (removed ++ rest) →
      front_maximal score rest := by
  intro removed
  induction removed with
  | nil => intro rest h; exact h
  | cons a removed ih =>
    intro rest h
    exact ih rest h.2

/-- A trail that lists exactly the assigned variables and whose length is not
`max_var` leaves a variable of `[1, max_var]` unassigned. -/
theorem unassigned_of_short_trail (s : Internal) (htrail : s.trail_lists_assigned)
    (hlen : s.trail.length ≠ s.max_var) :
    ∃ v : Int, 1 ≤ v ∧ v ≤ s.max_var ∧ s.val v = 0 := by
  obtain ⟨hnodup, hrange, hall⟩ := htrail
  by_contra hnone
  have hassigned : ∀ v : Nat, 1 ≤ v → v ≤ s.max_var → s.val (v : Int) ≠ 0 := by
    intro v h1 h2 hz
    exact hnone ⟨(v : Int), by omega, by omega, hz⟩
  have hcard : (s.trail.map Int.natAbs).toFinset.card = s.trail.length := by
    rw [List.toFinset_card_of_nodup hnodup, List.length_map]
  have hsub : (s.trail.map Int.natAbs).toFinset ⊆ Finset.Icc 1 s.max_var := by
    intro v hv
    obtain ⟨lit, hlit, rfl⟩ := List.mem_map.mp (List.mem_toFinset.mp hv)
    exact Finset.mem_Icc.mpr ⟨(hrange lit hlit).1, (hrange lit hlit).2.1⟩
  have hsup : Finset.Icc 1 s.max_var ⊆ (s.trail.map Int.natAbs).toFinset := by
    intro v hv
    obtain ⟨h1, h2⟩ := Finset.mem_Icc.mp hv
    exact List.mem_toFinset.mpr (hall v h1 h2 (hassigned v h1 h2))
  have h1 := Finset.card_le_card hsub
  have h2 := Finset.card_le_card hsup
  rw [hcard, Nat.card_Icc] at h1 h2
  omega

/-- The phase tables of `phase_state` hold only `-1`, `0` and `1`. -/
theorem phase_state_ternary : phase_state.phases.ternary := by
  intro t ht i
  have hcases : t = phase_state.phases.saved ∨ t = phase_state.phases.target ∨
      t = phase_state.phases.best ∨ t = phase_state.phases.prev ∨
      t = phase_state.phases.min := by
    simpa using ht
  rcases hcases with rfl | rfl | rfl | rfl | rfl
  · have h : phase_state.phases.saved i = if i = 3 then -1 else 0 := rfl
    rw [h]
    split_ifs <;> simp
  · have h : phase_state.phases.target i = if i = 3 then 1 else 0 := rfl
    rw [h]
    split_ifs <;> simp
  · have h : phase_state.phases.best i = if i = 2 then -1 else 0 := rfl
    rw [h]
    split_ifs <;> simp
  · have h : phase_state.phases.prev i = if i = 2 then 1 else 0 := rfl
    rw [h]
    split_ifs <;> simp
  · have h : phase_state.phases.min i = if i = 1 then -1 else 0 := rfl
    rw [h]
    split_ifs <;> simp

/-- A call of `select_lsids_based_phase` returns the phase and leaves the state
as it is. -/
theorem select_lsids_based_phase_call_eq (s : Internal) (idx : Int) :
    s.select_lsids_based_phase_call idx = (s.select_lsids_based_phase idx, s) := by
  unfold Internal.select_lsids_based_phase_call Internal.select_lsids_based_phase
  dsimp only
  split_ifs <;> rfl

/-- A call of `decide_cbt_phase` returns the literal and leaves the state as it
is. -/
theorem decide_cbt_phase_call_eq (s : Internal) (idx : Int) (target : Bool) :
    s.decide_cbt_phase_call idx target = (s.decide_cbt_phase idx target, s) := by
  unfold Internal.decide_cbt_phase_call Internal.decide_cbt_phase
  rw [select_lsids_based_phase_call_eq]
  generalize s.select_lsids_based_phase idx = l
  generalize s.opts.chronophase = c
  by_cases c7 : c = 7
  · subst c7; simp; split_ifs <;> simp_all
  by_cases c6 : c = 6
  · subst c6; simp; split_ifs <;> simp_all
  by_cases c5 : c = 5
  · subst c5; simp; split_ifs <;> simp_all
  by_cases c4 : c = 4
  · subst c4; simp; split_ifs <;> simp_all
  by_cases c3 : c = 3
  · subst c3; simp
  by_cases c2 : c = 2
  · subst c2; simp; split_ifs <;> simp_all
  by_cases c1 : c = 1
  · subst c1; simp; split_ifs <;> simp_all
  simp [c1, c2, c3, c4, c5, c6, c7]

/-- A call of `decide_phase` returns the literal and leaves the state as it
is. -/
theorem decide_phase_call_eq (s : Internal) (idx : Int) (target : Bool) :
    s.decide_phase_call idx target = (s.decide_phase idx target, s) := by
  unfold Internal.decide_phase_call Internal.decide_phase
  by_cases hc : s.cbt = true ∧ s.opts.chronophase > 0
  · rw [if_pos hc, if_pos hc]
    exact decide_cbt_phase_call_eq s idx target
  · rw [if_neg hc, if_neg hc]

/-! ## The assumption path of `decide` -/

/-- C1: in a state with `level` below the number of assumptions whose assumption
literal `assumptions[level]` is currently false, `decide` returns 20 and invokes
the assumption-failure collaborator `failing`; that invocation is all it does:
`level` and the control stack are unchanged and the commit collaborator
`search_assume_decision` is not called. -/
theorem decide_falsified_assumption (s : Internal) (fuel : Nat)
    (h : s.level < s.assumptions.length) (hfalse : s.val s.assumptions[s.level] < 0) :
    ∃ r, s.decide fuel = some (20, r) ∧
      r.calls = s.calls ++ [Collab.failing] ∧
      r.level = s.level ∧
      r.control = s.control ∧
      r = { s with calls := s.calls ++ [Collab.failing] } := by
  refine ⟨s.failing, ?_, rfl, rfl, rfl, rfl⟩
  unfold Internal.decide
  simp [h, hfalse]

/-- Witness of C1: assumptions `[2, -1]` with variable 2 assigned false at level 0
give 20, and the level stays 0. -/
theorem decide_falsified_assumption_witness :
    ∃ r, assumption_false_state.decide 0 = some (20, r) ∧
      r.calls = [Collab.failing] ∧ r.level = 0 ∧ r.control = [] := by
  obtain ⟨r, h1, h2, h3, h4, _⟩ :=
    decide_falsified_assumption assumption_false_state 0 (by decide) (by decide)
  exact ⟨r, h1, h2, h3, h4⟩

/-- C2: in a state with `level` below the number of assumptions whose assumption
literal `assumptions[level]` is currently true, `decide` returns 0, increases
`level` by exactly 1, appends exactly one control record, whose `trail` field is
the trail length before the call, leaves the trail, the variable assignments and
everything else unchanged and calls no collaborator; if `level` was the size of
the control stack before the call it is so after it. -/
theorem decide_satisfied_assumption (s : Internal) (fuel : Nat)
    (h : s.level < s.assumptions.length) (htrue : 0 < s.val s.assumptions[s.level]) :
    ∃ r, s.decide fuel = some (0, r) ∧
      r.level = s.level + 1 ∧
      (∃ record : Level, r.control = s.control ++ [record] ∧
        record.trail = s.trail.length) ∧
      r.control.length = s.control.length + 1 ∧
      r.trail = s.trail ∧
      r.vals = s.vals ∧
      r.calls = s.calls ∧
      r = { s with level := s.level + 1,
                   control := s.control ++ [Level.mk 0 s.trail.length] } ∧
      (s.level = s.control.length → r.level = r.control.length) := by
  refine ⟨{ s with level := s.level + 1,
                   control := s.control ++ [Level.mk 0 s.trail.length] },
    ?_, rfl, ⟨_, rfl, rfl⟩, by simp, rfl, rfl, rfl, rfl, ?_⟩
  · unfold Internal.decide
    have hnot : ¬ s.val s.assumptions[s.level] < 0 := by omega
    simp [h, hnot, htrue]
  · intro hl
    simp [hl]

/-- Witness of C2: assumptions `[2, -1]` with variable 2 assigned true give level 1
with the trail length unchanged. -/
theorem decide_satisfied_assumption_witness :
    ∃ r, assumption_true_state.decide 0 = some (0, r) ∧
      r.level = 1 ∧ r.trail.length = 1 ∧ r.control = [Level.mk 0 1] := by
  obtain ⟨r, h1, h2, _, _, h5, _, _, h8, _⟩ :=
    decide_satisfied_assumption assumption_true_state 0 (by decide) (by decide)
  refine ⟨r, h1, h2, ?_, ?_⟩
  · rw [h5]; rfl
  · rw [h8]; rfl

/-- C3: `decide` only ever returns 0 or 20, and it returns 20 exactly when `level`
is below the number of assumptions and the assumption literal at the current
level is false; in every other case it returns 0.  On the assumption path it
always returns, on the genuine-decision path it returns as soon as the lookup of
the decision variable has something to find. -/
theorem decide_status (s : Internal) (fuel : Nat) :
    (∀ r, s.decide fuel = some r →
      (r.1 = 0 ∨ r.1 = 20) ∧
      (r.1 = 20 ↔ ∃ h : s.level < s.assumptions.length, s.val s.assumptions[s.level] < 0) ∧
      ((¬ ∃ h : s.level < s.assumptions.length, s.val s.assumptions[s.level] < 0) → r.1 = 0)) ∧
    (s.level < s.assumptions.length ∨ s.decision_available fuel →
      ∃ r, s.decide fuel = some r) := by
  constructor
  · intro r hr
    unfold Internal.decide at hr
    by_cases h : s.level < s.assumptions.length
    · by_cases hfalse : s.val s.assumptions[s.level] < 0
      · simp only [h, hfalse, dite_true, if_true, Option.some.injEq] at hr
        subst hr
        exact ⟨Or.inr rfl, ⟨fun _ => ⟨h, hfalse⟩, fun _ => rfl⟩,
          fun hn => absurd ⟨h, hfalse⟩ hn⟩
      · have hres : r.1 = 0 := by
          by_cases htrue : s.val s.assumptions[s.level] > 0
          · simp only [h, hfalse, htrue, dite_true, if_true, if_false,
              Option.some.injEq] at hr
            subst hr; rfl
          · simp only [h, hfalse, htrue, dite_true, if_false, Option.some.injEq] at hr
            subst hr; rfl
        refine ⟨Or.inl hres, ⟨fun h20 => ?_, fun hex => ?_⟩, fun _ => hres⟩
        · rw [hres] at h20; exact absurd h20 (by decide)
        · obtain ⟨_, hf⟩ := hex
          exact absurd hf hfalse
    · simp only [h, dite_false] at hr
      have hres : r.1 = 0 := by
        split at hr
        · simp at hr
        · simp only [Option.some.injEq] at hr
          subst hr; rfl
      refine ⟨Or.inl hres, ⟨fun h20 => ?_, fun hex => ?_⟩, fun _ => hres⟩
      · rw [hres] at h20; exact absurd h20 (by decide)
      · obtain ⟨hlt, _⟩ := hex
        exact absurd hlt h
  · exact decide_some s fuel

/-- Witness of C3: the two assumption states return 20 and 0, and the state
without assumptions returns 0. -/
theorem decide_status_witness :
    (∃ r, assumption_false_state.decide 4 = some r ∧ r.1 = 20) ∧
    (∃ r, assumption_true_state.decide 4 = some r ∧ r.1 = 0) ∧
    (∃ r, queue_state.decide 4 = some r ∧ r.1 = 0) := by
  refine ⟨?_, ?_, ?_⟩
  · obtain ⟨r, hr⟩ := (decide_status assumption_false_state 4).2 (Or.inl (by decide))
    exact ⟨r, hr,
      ((decide_status assumption_false_state 4).1 r hr).2.1.mpr ⟨by decide, by decide⟩⟩
  · obtain ⟨r, hr⟩ := (decide_status assumption_true_state 4).2 (Or.inl (by decide))
    exact ⟨r, hr,
      ((decide_status assumption_true_state 4).1 r hr).2.2 (by decide)⟩
  · obtain ⟨r, hr⟩ := (decide_status queue_state 4).2 (Or.inr (by decide))
    exact ⟨r, hr, ((decide_status queue_state 4).1 r hr).2.2 (by decide)⟩

/-! ## The genuine-decision path of `decide` -/

/-- C4: in a state with `level` at least the number of assumptions, the literal that
`decide` hands to the commit collaborator `search_assume_decision` is exactly
`decide_phase (v, opts.stabilizephase && stable)`, where `v` is the variable
returned by `next_decision_variable` (the score lookup when `use_scores` holds,
the queue lookup otherwise), called after the decision has been counted; `v` is
unassigned, and with phase tables over `{-1, 0, 1}` the variable of the literal
is `v`.  The lookup returns as soon as it has something to find. -/
theorem decide_commits_chosen_phase (s : Internal) (fuel : Nat)
    (hlevel : s.assumptions.length ≤ s.level) :
    (∀ v s2, s.decision_counted.next_decision_variable fuel = some (v, s2) →
      ∃ r, s.decide fuel = some (0, r) ∧
        r.calls = s.calls ++ [Collab.search_assume_decision
          (s2.decide_phase v (Decidable.decide (s2.opts.stabilizephase ≠ 0) && s2.stable))] ∧
        s2.decide_phase v (Decidable.decide (s2.opts.stabilizephase ≠ 0) && s2.stable) =
          s.decide_phase v (Decidable.decide (s.opts.stabilizephase ≠ 0) && s.stable) ∧
        s.val v = 0 ∧
        (s.phases.ternary →
          (s.decide_phase v
            (Decidable.decide (s.opts.stabilizephase ≠ 0) && s.stable)).natAbs = v.natAbs)) ∧
    s.decision_counted.next_decision_variable fuel =
      (if s.use_scores then s.decision_counted.next_decision_variable_with_best_score
       else s.decision_counted.next_decision_variable_on_queue fuel) ∧
    (s.decision_available fuel →
      ∃ v s2, s.decision_counted.next_decision_variable fuel = some (v, s2)) := by
  refine ⟨?_, rfl, ?_⟩
  · intro v s2 hn
    obtain ⟨hval, hframe⟩ := next_decision_variable_frame _ _ _ _ hn
    have hopts : s2.opts = s.opts := by rw [hframe]; rfl
    have hstable : s2.stable = s.stable := by rw [hframe]; rfl
    have hcalls : s2.calls = s.calls := by rw [hframe]; rfl
    have hphase : ∀ target, s2.decide_phase v target = s.decide_phase v target := by
      intro target
      apply decide_phase_frame
      rw [hframe]
      rfl
    refine ⟨s2.search_assume_decision
      (s2.decide_phase v (Decidable.decide (s2.opts.stabilizephase ≠ 0) && s2.stable)),
      ?_, ?_, ?_, hval, ?_⟩
    · unfold Internal.decide
      have hnot : ¬ s.level < s.assumptions.length := by omega
      unfold Internal.decision_counted at hn
      simp only [hnot, dite_false, hn]
    · unfold Internal.search_assume_decision
      simp only [hcalls]
    · rw [hphase, hopts, hstable]
    · intro htern
      rcases decide_phase_sign s v
        (Decidable.decide (s.opts.stabilizephase ≠ 0) && s.stable) htern with h | h
      · rw [h]
      · rw [h, Int.natAbs_neg]
  · intro hav
    exact next_decision_variable_some _ _
      ((decision_available_congr s s.decision_counted fuel rfl rfl rfl rfl rfl).mpr hav)

/-- Witness of C4: three unassigned variables, no assumptions, queue order 3, 2, 1,
queue mode, phase tables unset, initial polarity positive: the committed
literal is `+3`. -/
theorem decide_commits_chosen_phase_witness :
    ∃ r, queue_state.decide 4 = some (0, r) ∧
      r.calls = [Collab.search_assume_decision 3] ∧ queue_state.val 3 = 0 := by
  obtain ⟨r, h1, h2, _, h4, _⟩ :=
    (decide_commits_chosen_phase queue_state 4 (by decide)).1 3 queue_state_counted rfl
  exact ⟨r, h1, h2, h4⟩

/-- C5: in a state with `level` at least the number of assumptions (the
genuine-decision path), one call of `decide` increases the counter
`stats.decisions` by exactly 1; the call returns as soon as the lookup of the
decision variable has something to find. -/
theorem decide_counts_decision (s : Internal) (fuel : Nat)
    (hlevel : s.assumptions.length ≤ s.level) :
    (∀ r, s.decide fuel = some r → r.2.stats.decisions = s.stats.decisions + 1) ∧
    (s.decision_available fuel →
      ∃ r, s.decide fuel = some r ∧ r.2.stats.decisions = s.stats.decisions + 1) := by
  have hnot : ¬ s.level < s.assumptions.length := by omega
  have hall : ∀ r, s.decide fuel = some r → r.2.stats.decisions = s.stats.decisions + 1 := by
    intro r hr
    unfold Internal.decide at hr
    simp only [hnot, dite_false] at hr
    cases hn : ({ s with stats := { s.stats with decisions := s.stats.decisions + 1 } } :
        Internal).next_decision_variable fuel with
    | none => simp [hn] at hr
    | some p =>
      obtain ⟨v, s2⟩ := p
      simp only [hn, Option.some.injEq] at hr
      obtain ⟨_, hframe⟩ := next_decision_variable_frame _ _ _ _ hn
      subst hr
      show s2.stats.decisions = s.stats.decisions + 1
      rw [hframe]
  refine ⟨hall, fun hav => ?_⟩
  obtain ⟨r, hr⟩ := decide_some s fuel (Or.inr hav)
  exact ⟨r, hr, hall r hr⟩

/-- Witness of C5: the first decision in the three-variable state brings the
counter from 0 to 1. -/
theorem decide_counts_decision_witness :
    ∃ r, queue_state.decide 4 = some r ∧ r.2.stats.decisions = 1 := by
  obtain ⟨r, h1, h2⟩ := (decide_counts_decision queue_state 4 (by decide)).2 (by decide)
  exact ⟨r, h1, h2⟩

/-! ## The phase selection -/

/-- C6: when chronological backtracking is not active or `opts.chronophase <= 0`,
`decide_phase (idx, target)` is `p * idx`, where `p` is the first non-zero value
among, in this order: `saved[idx]` if `force_saved_phase` is set, the constant
initial polarity (`+1` if `opts.phase`, else `-1`) if `opts.forcephase` is set,
`target[idx]` if the target phase is requested, `saved[idx]`, and the constant
initial polarity. -/
theorem decide_phase_first_non_zero (s : Internal) (idx : Int) (target : Bool)
    (h : s.cbt = false ∨ s.opts.chronophase ≤ 0) :
    s.decide_phase idx target = s.spec_baseline_phase idx target * idx := by
  apply decide_phase_baseline_resolution
  rintro ⟨hcbt, hmode⟩
  rcases h with h | h
  · rw [hcbt] at h
    exact Bool.noConfusion h
  · omega

/-- Witness of C6: with chronological backtracking switched off in `phase_state`
(`saved[3] = -1`, `target[3] = 1`, nothing forced), variable 3 is decided as
`+3` when the target phase is requested and as `-3` when it is not, and the
unset variable 2 gets the initial polarity, here negative. -/
theorem decide_phase_first_non_zero_witness :
    ({ phase_state with cbt := false } : Internal).decide_phase 3 true = 3 ∧
    ({ phase_state with cbt := false } : Internal).decide_phase 3 false = -3 ∧
    ({ phase_state with cbt := false } : Internal).decide_phase 2 true = -2 := by
  refine ⟨?_, ?_, ?_⟩
  · rw [decide_phase_first_non_zero _ 3 true (Or.inl rfl)]; decide
  · rw [decide_phase_first_non_zero _ 3 false (Or.inl rfl)]; decide
  · rw [decide_phase_first_non_zero _ 2 true (Or.inl rfl)]; decide

/-- C7: if chronological backtracking is active and `opts.chronophase > 0` then
`decide_phase (idx, target)` is `decide_cbt_phase (idx, target)`, whatever the
values of `force_saved_phase`, `opts.forcephase` and the saved table; otherwise
`decide_phase (idx, target)` is the baseline resolution and does not depend on
`opts.chronophase`, the literal-activity table or the best, prev and min
tables. -/
theorem decide_phase_dispatch (s : Internal) (idx : Int) (target : Bool) :
    (s.cbt = true → 0 < s.opts.chronophase →
      s.decide_phase idx target = s.decide_cbt_phase idx target ∧
      ∀ (forced : Bool) (forcephase : Int) (saved : Int → Int),
        ({ s with force_saved_phase := forced,
                  opts := { s.opts with forcephase := forcephase },
                  phases := { s.phases with saved := saved } } : Internal).decide_phase
            idx target = s.decide_phase idx target) ∧
    (¬ (s.cbt = true ∧ 0 < s.opts.chronophase) →
      s.decide_phase idx target = s.spec_baseline_phase idx target * idx ∧
      ∀ (chronophase : Int) (lstab : Nat → Activity) (best prev min : Int → Int),
        ¬ (s.cbt = true ∧ 0 < chronophase) →
        ({ s with opts := { s.opts with chronophase := chronophase },
                  lstab := lstab,
                  phases := { s.phases with best := best, prev := prev, min := min } } :
            Internal).decide_phase idx target = s.decide_phase idx target) := by
  constructor
  · intro hcbt hmode
    have hcond : s.cbt = true ∧ s.opts.chronophase > 0 := ⟨hcbt, hmode⟩
    have hsame : s.decide_phase idx target = s.decide_cbt_phase idx target := by
      unfold Internal.decide_phase
      rw [if_pos hcond]
    refine ⟨hsame, fun forced forcephase saved => ?_⟩
    rw [hsame]
    unfold Internal.decide_phase
    rw [if_pos hcond]
    rfl
  · intro hcond
    refine ⟨decide_phase_baseline_resolution s idx target hcond, ?_⟩
    intro chronophase lstab best prev min hcond2
    rw [decide_phase_baseline_resolution s idx target hcond,
      decide_phase_baseline_resolution _ idx target hcond2]
    rfl

/-- Witness of C7: `phase_state` is in chronological mode 4 and decides variable 3
by `target[3] = 1`, although `saved[3] = -1`; with chronological backtracking
switched off the same tables give `-3`, also after `opts.chronophase`, the
activities and the best, prev and min tables have been replaced. -/
theorem decide_phase_dispatch_witness :
    phase_state.decide_phase 3 false = phase_state.decide_cbt_phase 3 false ∧
    phase_state.decide_cbt_phase 3 false = 3 ∧
    ({ phase_state with
        cbt := false
        opts := { phase_state.opts with chronophase := 1 }
        lstab := fun _ => Activity.nan
        phases := { phase_state.phases with
                    best := fun _ => 1, prev := fun _ => 1, min := fun _ => 1 } } :
      Internal).decide_phase 3 false = -3 := by
  refine ⟨((decide_phase_dispatch phase_state 3 false).1 rfl (by decide)).1, by decide, ?_⟩
  rw [((decide_phase_dispatch { phase_state with cbt := false } 3 false).2
    (by decide)).2 1 (fun _ => Activity.nan) (fun _ => 1) (fun _ => 1) (fun _ => 1) (by decide)]
  decide

/-- C8: `decide_cbt_phase` in mode 4, 5, 6 or 7 returns `t[idx] * idx`, where `t` is
the target, best, prev or min table respectively, when `t[idx]` is non-zero, and
the constant initial polarity (`+1` if `opts.phase`, else `-1`) times `idx` when
`t[idx]` is zero. -/
theorem decide_cbt_phase_table_modes (s : Internal) (idx : Int) (target : Bool)
    (t : Int → Int)
    (hmode : (s.opts.chronophase = 4 ∧ t = s.phases.target) ∨
             (s.opts.chronophase = 5 ∧ t = s.phases.best) ∨
             (s.opts.chronophase = 6 ∧ t = s.phases.prev) ∨
             (s.opts.chronophase = 7 ∧ t = s.phases.min)) :
    (t idx ≠ 0 → s.decide_cbt_phase idx target = t idx * idx) ∧
    (t idx = 0 →
      s.decide_cbt_phase idx target = (if s.opts.phase ≠ 0 then 1 else -1) * idx) := by
  unfold Internal.decide_cbt_phase
  rcases hmode with ⟨hm, rfl⟩ | ⟨hm, rfl⟩ | ⟨hm, rfl⟩ | ⟨hm, rfl⟩ <;>
    refine ⟨fun hz => ?_, fun hz => ?_⟩ <;> simp [hm, hz]

/-- Witness of C8: in `phase_state`, mode 4 reads `target[3] = 1` and gives `3`, and
for variable 2, whose target entry is zero, it gives the initial polarity, here
negative; mode 7 reads `min[1] = -1`. -/
theorem decide_cbt_phase_table_modes_witness :
    phase_state.decide_cbt_phase 3 false = 1 * 3 ∧
    phase_state.decide_cbt_phase 2 false = -1 * 2 ∧
    ({ phase_state with opts := ⟨0, 0, 7, 0, 0⟩ } : Internal).decide_cbt_phase 1 true
      = -1 * 1 := by
  refine ⟨?_, ?_, ?_⟩
  · exact (decide_cbt_phase_table_modes phase_state 3 false phase_state.phases.target
      (Or.inl ⟨rfl, rfl⟩)).1 (by decide)
  · exact (decide_cbt_phase_table_modes phase_state 2 false phase_state.phases.target
      (Or.inl ⟨rfl, rfl⟩)).2 (by decide)
  · exact (decide_cbt_phase_table_modes { phase_state with opts := ⟨0, 0, 7, 0, 0⟩ } 1 true
      phase_state.phases.min (Or.inr (Or.inr (Or.inr ⟨rfl, rfl⟩)))).1 (by decide)

/-- C9: for a variable `idx` in `[1, max_var]` (with `max_var` an `int`, at most
`2^31 - 1`), `select_lsids_based_phase (idx)` returns `+1` if and only if the
activity at index `2 * idx` is strictly greater than the activity at index
`2 * idx + 1`, and `-1` otherwise; in particular it returns `-1` when the two
activities are equal. -/
theorem select_lsids_based_phase_spec (s : Internal) (idx : Int)
    (hlow : 1 ≤ idx) (hhigh : idx ≤ s.max_var) (hint : s.max_var ≤ 2147483647) :
    (s.select_lsids_based_phase idx = 1 ↔
      (s.lstab (2 * idx).toNat).gt (s.lstab (2 * idx + 1).toNat) = true) ∧
    ((s.lstab (2 * idx).toNat).gt (s.lstab (2 * idx + 1).toNat) = false →
      s.select_lsids_based_phase idx = -1) ∧
    (s.lstab (2 * idx).toNat = s.lstab (2 * idx + 1).toNat →
      s.select_lsids_based_phase idx = -1) := by
  have hpos : (2 * idx) % 4294967296 = 2 * idx := by
    apply Int.emod_eq_of_lt <;> omega
  have hneg : (2 * idx + 1) % 4294967296 = 2 * idx + 1 := by
    apply Int.emod_eq_of_lt <;> omega
  unfold Internal.select_lsids_based_phase
  rw [hpos, hneg]
  dsimp only
  refine ⟨?_, ?_, ?_⟩
  · by_cases hg : (s.lstab (2 * idx).toNat).gt (s.lstab (2 * idx + 1).toNat) = true
    · simp [hg]
    · simp [hg]
  · intro hg
    simp [hg]
  · intro heq
    rw [heq, Activity.gt_self]
    simp

/-- Witness of C9: in `phase_state` the positive literal of variable 2 has the
larger activity, so the phase is `+1`; the two literals of variable 3 have equal
activities, so the phase is `-1`. -/
theorem select_lsids_based_phase_spec_witness :
    phase_state.select_lsids_based_phase 2 = 1 ∧
    phase_state.select_lsids_based_phase 3 = -1 := by
  refine ⟨?_, ?_⟩
  · exact (select_lsids_based_phase_spec phase_state 2 (by decide) (by decide)
      (by decide)).1.mpr (by decide)
  · exact (select_lsids_based_phase_spec phase_state 3 (by decide) (by decide)
      (by decide)).2.2 (by decide)

/-- C10: for every variable `idx`, every target flag, every content of the phase
tables and of the literal-activity table and every value of `opts.phase` and
`opts.seed`, `decide_cbt_phase (idx, target)` in mode 3 returns `idx * -1`. -/
theorem decide_cbt_phase_mode_three (s : Internal) (idx : Int) (target : Bool)
    (hmode : s.opts.chronophase = 3) :
    s.decide_cbt_phase idx target = idx * -1 := by
  unfold Internal.decide_cbt_phase
  simp [hmode]

/-- Witness of C10: `phase_state` switched to mode 3 decides variable 3, whose target
entry is `1`, as `-3`. -/
theorem decide_cbt_phase_mode_three_witness :
    ({ phase_state with opts := ⟨1, 0, 3, 0, 7⟩ } : Internal).decide_cbt_phase 3 true
      = 3 * -1 :=
  decide_cbt_phase_mode_three { phase_state with opts := ⟨1, 0, 3, 0, 7⟩ } 3 true rfl

/-- C11: in mode 2 of `decide_cbt_phase` the generator is created from `opts.seed`
inside the call, so the polarity is a function of the seed alone: the result is
`sign * idx` with `sign = -1` when the first generated boolean is true and
`sign = +1` when it is false, the same `sign` for every variable, every target
flag and every content of the tables, and two calls on states with the same
options give the same literal. -/
theorem decide_cbt_phase_seeded (s : Internal) (idx : Int) (target : Bool)
    (hmode : s.opts.chronophase = 2) :
    s.decide_cbt_phase idx target
      = (if s.generate_bool s.opts.seed then -1 else 1) * idx ∧
    (idx ≠ 0 → s.decide_cbt_phase idx target / idx
      = if s.generate_bool s.opts.seed then -1 else 1) ∧
    (∀ (t : Internal) (jdx : Int) (target2 : Bool),
      t.opts.chronophase = 2 → t.opts.seed = s.opts.seed →
      t.generate_bool = s.generate_bool →
      ∃ sign : Int, (sign = 1 ∨ sign = -1) ∧
        s.decide_cbt_phase idx target = sign * idx ∧
        t.decide_cbt_phase jdx target2 = sign * jdx) ∧
    (∀ t : Internal, t.opts = s.opts → t.generate_bool = s.generate_bool →
      t.decide_cbt_phase idx target = s.decide_cbt_phase idx target) := by
  have hs : ∀ (u : Internal) (j : Int) (b : Bool), u.opts.chronophase = 2 →
      u.decide_cbt_phase j b = (if u.generate_bool u.opts.seed then -1 else 1) * j := by
    intro u j b hu
    unfold Internal.decide_cbt_phase
    cases hg : u.generate_bool u.opts.seed <;> simp [hu, hg]
  refine ⟨hs s idx target hmode, ?_, ?_, ?_⟩
  · intro hidx
    rw [hs s idx target hmode]
    exact Int.mul_ediv_cancel _ hidx
  · intro t jdx target2 ht hseed hgen
    refine ⟨if s.generate_bool s.opts.seed then -1 else 1, ?_, hs s idx target hmode, ?_⟩
    · by_cases hb : s.generate_bool s.opts.seed = true
      · right; rw [if_pos hb]
      · left; rw [if_neg hb]
    · rw [hs t jdx target2 ht, hseed, hgen]
  · intro t hopts hgen
    rw [hs s idx target hmode, hs t idx target (by rw [hopts]; exact hmode), hopts, hgen]

/-- Witness of C11: `phase_state` switched to mode 2 with seed 7; its generator
yields true first, so variables 3 and 2 are both decided negatively, whatever
the target flag. -/
theorem decide_cbt_phase_seeded_witness :
    ({ phase_state with opts := ⟨1, 0, 2, 0, 7⟩ } : Internal).decide_cbt_phase 3 true = -3 ∧
    ({ phase_state with opts := ⟨1, 0, 2, 0, 7⟩ } : Internal).decide_cbt_phase 2 false = -2 := by
  refine ⟨?_, ?_⟩
  · rw [(decide_cbt_phase_seeded { phase_state with opts := ⟨1, 0, 2, 0, 7⟩ } 3 true rfl).1]
    decide
  · rw [(decide_cbt_phase_seeded { phase_state with opts := ⟨1, 0, 2, 0, 7⟩ } 2 false rfl).1]
    decide

/-- C12: for every variable `idx`, assigned or not, a call of `likely_phase (idx)`
returns what a call of `decide_phase (idx, false)` returns and leaves the whole
solver state unchanged: the state after the call is the state before it, so
the assignment, the queue cursor, the score structure, the phase tables, the
counters, the level and the trail are what they were.  The returned literal is
the same in every state that has the same options, flags and tables. -/
theorem likely_phase_probe (s : Internal) (idx : Int) :
    (s.likely_phase_call idx).1 = (s.decide_phase_call idx false).1 ∧
    (s.likely_phase_call idx).2 = s ∧
    ((s.likely_phase_call idx).2.vals = s.vals ∧
      (s.likely_phase_call idx).2.queue = s.queue ∧
      (s.likely_phase_call idx).2.scores = s.scores ∧
      (s.likely_phase_call idx).2.phases = s.phases ∧
      (s.likely_phase_call idx).2.stats = s.stats ∧
      (s.likely_phase_call idx).2.level = s.level ∧
      (s.likely_phase_call idx).2.trail = s.trail) ∧
    s.decide_phase_call idx false = (s.decide_phase idx false, s) ∧
    s.likely_phase_call idx = (s.likely_phase idx, s) ∧
    s.likely_phase idx = s.decide_phase idx false ∧
    ∀ t : Internal, t.opts = s.opts → t.phases = s.phases → t.lstab = s.lstab →
      t.generate_bool = s.generate_bool → t.cbt = s.cbt →
      t.force_saved_phase = s.force_saved_phase →
      t.likely_phase idx = s.likely_phase idx := by
  have hcall : s.likely_phase_call idx = (s.decide_phase idx false, s) := by
    unfold Internal.likely_phase_call
    exact decide_phase_call_eq s idx false
  have hstate : (s.likely_phase_call idx).2 = s := by rw [hcall]
  refine ⟨rfl, hstate, ?_, decide_phase_call_eq s idx false, hcall, rfl, ?_⟩
  · rw [hstate]
    exact ⟨rfl, rfl, rfl, rfl, rfl, rfl, rfl⟩
  · intro t hopts hphases hlstab hgen hcbt hforce
    unfold Internal.likely_phase Internal.decide_phase Internal.decide_cbt_phase
      Internal.select_lsids_based_phase
    rw [hopts, hphases, hlstab, hgen, hcbt, hforce]

/-- Witness of C12: in `walk_state`, where variable 3 is assigned and variable 1 is
not, the call returns the initial polarity for both and leaves the assignment
and the counters as they are; the literal is the one of `queue_state`, which
has the same tables and no assignment. -/
theorem likely_phase_probe_witness :
    (walk_state.likely_phase_call 3).1 = 3 ∧
    (walk_state.likely_phase_call 1).1 = 1 ∧
    (walk_state.likely_phase_call 3).2.vals 3 = 1 ∧
    (walk_state.likely_phase_call 3).2.stats = ⟨0, 0⟩ ∧
    walk_state.likely_phase 3 = queue_state.likely_phase 3 := by
  refine ⟨?_, ?_, ?_, ?_, ?_⟩
  · rw [(likely_phase_probe walk_state 3).2.2.2.2.1]; decide
  · rw [(likely_phase_probe walk_state 1).2.2.2.2.1]; decide
  · rw [(likely_phase_probe walk_state 3).2.1]; decide
  · rw [(likely_phase_probe walk_state 3).2.1]; decide
  · exact (likely_phase_probe queue_state 3).2.2.2.2.2.2 walk_state rfl rfl rfl rfl rfl rfl

/-- C13: `satisfied` returns true if and only if the propagation index is not below
the trail length, the level is at least the number of assumptions and the trail
length equals `max_var`; as the propagation index is an index into the trail,
at most its length, that is: if and only if the propagation index equals the
trail length, the level is at least the number of assumptions and the trail
length equals `max_var`. -/
theorem satisfied_iff (s : Internal) :
    (s.satisfied = true ↔
      ¬ s.propagated < s.trail.length ∧ ¬ s.level < s.assumptions.length ∧
        s.trail.length = s.max_var) ∧
    (s.propagated ≤ s.trail.length →
      (s.satisfied = true ↔
        s.propagated = s.trail.length ∧ s.assumptions.length ≤ s.level ∧
          s.trail.length = s.max_var)) := by
  have hcode : s.satisfied = true ↔
      ¬ s.propagated < s.trail.length ∧ ¬ s.level < s.assumptions.length ∧
        s.trail.length = s.max_var := by
    unfold Internal.satisfied
    dsimp only
    by_cases hp : s.propagated < s.trail.length
    · simp [hp]
    · by_cases hl : s.level < s.assumptions.length
      · simp [hp, hl]
      · simp [hp, hl]
  refine ⟨hcode, fun hle => ?_⟩
  rw [hcode]
  constructor
  · rintro ⟨h1, h2, h3⟩
    exact ⟨by omega, by omega, h3⟩
  · rintro ⟨h1, h2, h3⟩
    exact ⟨by omega, by omega, h3⟩

/-- Witness of C13: `queue_state` with all three variables on the trail and
propagated is satisfied; `pending_state`, whose trail is not propagated, and
`assumption_true_state`, whose assumptions are not processed, are not. -/
theorem satisfied_iff_witness :
    ({ queue_state with trail := [3, 2, 1], propagated := 3 } : Internal).satisfied = true ∧
    pending_state.satisfied = false ∧ assumption_true_state.satisfied = false := by
  refine ⟨?_, ?_, ?_⟩
  · exact ((satisfied_iff { queue_state with trail := [3, 2, 1], propagated := 3 }).2
      (by decide)).mpr ⟨by decide, by decide, by decide⟩
  · apply Bool.eq_false_iff.mpr
    intro h
    exact absurd (((satisfied_iff pending_state).2 (by decide)).mp h).1 (by decide)
  · apply Bool.eq_false_iff.mpr
    intro h
    exact absurd (((satisfied_iff assumption_true_state).2 (by decide)).mp h).2.1 (by decide)

/-! ## The lookup of the decision variable -/

/-- C14: in a state in which an unassigned variable is reachable from the cursor
`queue.unassigned` along the `prev` links, `next_decision_variable_on_queue`
returns an unassigned variable and changes no assignment; a second call, made
on the state the first one left, returns the same variable and changes
nothing, in particular neither the cursor nor the counter `stats.searched`. -/
theorem on_queue_idempotent (s : Internal) (fuel : Nat)
    (h : ∃ k < fuel, s.val (s.prev_chain k s.queue.unassigned) = 0) :
    ∃ v s1, s.next_decision_variable_on_queue fuel = some (v, s1) ∧
      s.val v = 0 ∧
      s1.vals = s.vals ∧
      ∀ fuel2, 0 < fuel2 →
        ∃ s2, s1.next_decision_variable_on_queue fuel2 = some (v, s2) ∧
          s2 = s1 ∧ s2.queue.unassigned = s1.queue.unassigned ∧
          s2.stats.searched = s1.stats.searched := by
  obtain ⟨k, hk, hz, hmin⟩ := first_unassigned_on_chain s s.queue.unassigned fuel h
  have hfirst := on_queue_first s fuel k hk hz hmin
  by_cases h0 : k = 0
  · subst h0
    rw [if_neg (by simp)] at hfirst
    refine ⟨_, _, hfirst, hz, rfl, fun fuel2 hfuel2 => ?_⟩
    exact ⟨s, on_queue_at_unassigned s fuel2 hfuel2 hz, rfl, rfl, rfl⟩
  · rw [if_pos h0] at hfirst
    refine ⟨_, _, hfirst, hz, rfl, fun fuel2 hfuel2 => ?_⟩
    exact ⟨_, on_queue_at_unassigned _ fuel2 hfuel2 hz, rfl, rfl, rfl⟩

/-- Witness of C14: in `walk_state` the cursor is on the assigned variable 3 and
variable 1 is found; a second call finds variable 1 again. -/
theorem on_queue_idempotent_witness :
    ∃ s1, walk_state.next_decision_variable_on_queue 5 = some (1, s1) ∧
      s1.next_decision_variable_on_queue 5 = some (1, s1) := by
  obtain ⟨v, s1, h1, _, _, h4⟩ := on_queue_idempotent walk_state 5 (by decide)
  have hv : v = 1 := by
    have h := congrArg (Option.map Prod.fst) h1
    exact (Option.some.inj h).symm
  subst hv
  obtain ⟨s2, h5, h6, _⟩ := h4 5 (by decide)
  rw [h6] at h5
  exact ⟨s1, h1, h5⟩

/-- C15: `next_decision_variable_with_best_score` never returns an assigned
variable; and for a score structure whose `front ()` always yields an entry of
maximum activity and which holds at least one unassigned variable, it returns,
and the variable it returns is in the structure, is unassigned and has an
activity greater than or equal to that of every unassigned variable in the
structure. -/
theorem best_score_is_maximal {α : Type} [Preorder α] (score : Int → α) (s : Internal) :
    (∀ v s1, s.next_decision_variable_with_best_score = some (v, s1) → s.val v = 0) ∧
    (front_maximal score s.scores → (∃ u ∈ s.scores, s.val u = 0) →
      ∃ v s1, s.next_decision_variable_with_best_score = some (v, s1) ∧
        s.val v = 0 ∧ v ∈ s.scores ∧
        ∀ u ∈ s.scores, s.val u = 0 → score u ≤ score v) := by
  constructor
  · intro v s1 h
    unfold Internal.next_decision_variable_with_best_score at h
    cases hl : best_score_loop s.vals s.scores with
    | none => simp [hl] at h
    | some p =>
      obtain ⟨res, rest⟩ := p
      simp only [hl, Option.some.injEq, Prod.mk.injEq] at h
      rw [← h.1]
      exact best_score_loop_val _ _ _ _ hl
  · intro hmax hex
    obtain ⟨v, rest, hl⟩ := best_score_loop_some s.vals s.scores hex
    obtain ⟨removed, tail, hsplit, hrest, hremoved, hv⟩ :=
      best_score_loop_split s.vals s.scores v rest hl
    refine ⟨v, { s with scores := rest }, ?_, hv, ?_, ?_⟩
    · unfold Internal.next_decision_variable_with_best_score
      rw [hl]
    · rw [hsplit, hrest]
      simp
    · intro u hu hzero
      rw [hsplit] at hu hmax
      have hsuffix := front_maximal_suffix score removed rest hmax
      rw [hrest] at hu hsuffix
      rcases List.mem_append.mp hu with hu | hu
      · exact absurd hzero (hremoved u hu)
      · rcases List.mem_cons.mp hu with rfl | hu
        · exact le_refl _
        · exact hsuffix.1 u hu

/-- Witness of C15: in `score_state` the structure hands out 3, 1, 2 with activities
5, 4, 1; variable 3 is assigned, and the unassigned variable 1 is returned. -/
theorem best_score_is_maximal_witness :
    ∃ s1, score_state.next_decision_variable_with_best_score = some (1, s1) ∧
      score_state.val 1 = 0 ∧
      ∀ u ∈ score_state.scores, score_state.val u = 0 → example_score u ≤ example_score 1 := by
  obtain ⟨v, s1, h1, h2, _, h4⟩ :=
    (best_score_is_maximal example_score score_state).2
      ⟨by decide, by decide, by decide, trivial⟩ ⟨1, by decide, by decide⟩
  have hv : v = 1 := by
    have h := congrArg (Option.map Prod.fst) h1
    exact (Option.some.inj h).symm
  subst hv
  exact ⟨s1, h1, h2, h4⟩

/-- Counterexample to C16 as stated: in `pending_state` the trail lists exactly the
assigned variables, `satisfied` is false (the trail is not propagated yet) and
the level is at least the number of assumptions, but no variable of
`[1, max_var]` is unassigned. -/
theorem not_satisfied_without_unassigned :
    pending_state.trail_lists_assigned ∧
    pending_state.satisfied = false ∧
    pending_state.assumptions.length ≤ pending_state.level ∧
    ¬ ∃ v : Int, 1 ≤ v ∧ v ≤ pending_state.max_var ∧ pending_state.val v = 0 := by
  refine ⟨⟨by decide, ?_, ?_⟩, by decide, by decide, ?_⟩
  · intro lit hlit
    have h1 : lit = 1 := by simpa [pending_state] using hlit
    subst h1
    exact ⟨by decide, by decide, by decide⟩
  · intro v h1 h2 _
    have hmax : pending_state.max_var = 1 := rfl
    have hv : v = 1 := by omega
    subst hv
    decide
  · rintro ⟨v, h1, h2, h3⟩
    have hmax : (pending_state.max_var : Int) = 1 := rfl
    have hv : v = 1 := by omega
    subst hv
    exact absurd h3 (by decide)

/-- C16, amended: in a state in which the trail lists exactly the assigned variables
(each once, all in `[1, max_var]`) and nothing is left to propagate (the
propagation index is not below the trail length), if `satisfied` is false and
the level is at least the number of assumptions, then at least one variable of
`[1, max_var]` is unassigned. -/
theorem unassigned_of_not_satisfied (s : Internal) (htrail : s.trail_lists_assigned)
    (hprop : s.trail.length ≤ s.propagated) (hsat : s.satisfied = false)
    (hlevel : s.assumptions.length ≤ s.level) :
    ∃ v : Int, 1 ≤ v ∧ v ≤ s.max_var ∧ s.val v = 0 := by
  apply unassigned_of_short_trail s htrail
  intro hlen
  unfold Internal.satisfied at hsat
  have h1 : ¬ s.propagated < s.trail.length := by omega
  have h2 : ¬ s.level < s.assumptions.length := by omega
  dsimp only at hsat
  rw [if_neg h1, if_neg h2] at hsat
  exact of_decide_eq_false hsat hlen

/-- Witness of C16, amended: `walk_state` has its two assigned variables on the
propagated trail and is not satisfied; a variable is unassigned. -/
theorem unassigned_of_not_satisfied_witness :
    ∃ v : Int, 1 ≤ v ∧ v ≤ walk_state.max_var ∧ walk_state.val v = 0 := by
  apply unassigned_of_not_satisfied walk_state ⟨by decide, ?_, ?_⟩ (by decide) (by decide)
    (by decide)
  · intro lit hlit
    have h : lit = 3 ∨ lit = -2 := by simpa [walk_state] using hlit
    rcases h with rfl | rfl <;> exact ⟨by decide, by decide, by decide⟩
  · intro v h1 h2 hv
    have hmax : walk_state.max_var = 3 := rfl
    have h : v = 1 ∨ v = 2 ∨ v = 3 := by omega
    rcases h with rfl | rfl | rfl
    · exact absurd rfl hv
    · decide
    · decide

/-- C17: if the first unassigned variable on the `prev` chain that starts at the
cursor `queue.unassigned` is reached after `k >= 0` steps (every variable
before it is assigned), then `next_decision_variable_on_queue` returns exactly
that variable and increases `stats.searched` by exactly `k`; when `k > 0` it
sets the cursor to the returned variable with `update_queue_unassigned`, when
`k = 0` it leaves the whole state untouched.  The new cursor is thus `k` steps
along `prev` from the old one, never toward `next`, and nothing but the cursor
and `stats.searched` changes. -/
theorem on_queue_walks_back (s : Internal) (fuel k : Nat) (hk : k < fuel)
    (hz : s.val (s.prev_chain k s.queue.unassigned) = 0)
    (hmin : ∀ j < k, s.val (s.prev_chain j s.queue.unassigned) ≠ 0) :
    ∃ s1, s.next_decision_variable_on_queue fuel
        = some (s.prev_chain k s.queue.unassigned, s1) ∧
      s1.stats.searched = s.stats.searched + k ∧
      s1.queue.unassigned = s.prev_chain k s.queue.unassigned ∧
      (0 < k → s1 =
        ({ s with stats := { s.stats with searched := s.stats.searched + k } } :
          Internal).update_queue_unassigned (s.prev_chain k s.queue.unassigned)) ∧
      (k = 0 → s1 = s) ∧
      s1 = { s with stats := { s.stats with searched := s1.stats.searched },
                    queue := s1.queue } := by
  have hfirst := on_queue_first s fuel k hk hz hmin
  by_cases h0 : k = 0
  · subst h0
    rw [if_neg (by simp)] at hfirst
    exact ⟨s, hfirst, rfl, rfl, fun h => absurd h (lt_irrefl 0), fun _ => rfl, rfl⟩
  · rw [if_pos h0] at hfirst
    exact ⟨_, hfirst, rfl, rfl, fun _ => rfl, fun h => absurd h h0, rfl⟩

/-- Witness of C17: in `walk_state` the first unassigned variable is 1, two steps
from the cursor 3; it is returned, `stats.searched` goes from 0 to 2 and the
cursor moves to 1. -/
theorem on_queue_walks_back_witness :
    ∃ s1, walk_state.next_decision_variable_on_queue 5 = some (1, s1) ∧
      s1.stats.searched = 2 ∧ s1.queue.unassigned = 1 := by
  obtain ⟨s1, h1, h2, h3, _⟩ := on_queue_walks_back walk_state 5 2 (by decide) (by decide)
    (by decide)
  exact ⟨s1, h1, h2, h3⟩

/-- C18: in a state with `level` below the number of assumptions whose assumption
literal `assumptions[level]` is unassigned, `decide` passes exactly that
literal to the commit collaborator and returns 0; and on every assumption path
`decide` returns without selecting a variable: `stats.decisions`,
`stats.searched`, the queue cursor and the score structure are unchanged. -/
theorem decide_open_assumption (s : Internal) (fuel : Nat)
    (h : s.level < s.assumptions.length) :
    (s.val s.assumptions[s.level] = 0 →
      ∃ r, s.decide fuel = some (0, r) ∧
        r.calls = s.calls ++ [Collab.search_assume_decision s.assumptions[s.level]] ∧
        r = { s with calls :=
                s.calls ++ [Collab.search_assume_decision s.assumptions[s.level]] }) ∧
    (∃ r, s.decide fuel = some r ∧
      r.2.stats.decisions = s.stats.decisions ∧
      r.2.stats.searched = s.stats.searched ∧
      r.2.queue.unassigned = s.queue.unassigned ∧
      r.2.scores = s.scores) := by
  constructor
  · intro hzero
    refine ⟨s.search_assume_decision s.assumptions[s.level], ?_, rfl, rfl⟩
    unfold Internal.decide
    simp [h, hzero]
  · unfold Internal.decide
    simp only [h, dite_true]
    split_ifs
    · exact ⟨_, rfl, rfl, rfl, rfl, rfl⟩
    · exact ⟨_, rfl, rfl, rfl, rfl, rfl⟩
    · exact ⟨_, rfl, rfl, rfl, rfl, rfl⟩

/-- Witness of C18: in `assumption_open_state` the assumption of level 1 is the
unassigned literal `-1`; `decide` commits `-1`, with its own sign. -/
theorem decide_open_assumption_witness :
    ∃ r, assumption_open_state.decide 0 = some (0, r) ∧
      r.calls = [Collab.search_assume_decision (-1)] := by
  obtain ⟨r, h1, h2, _⟩ :=
    (decide_open_assumption assumption_open_state 0 (by decide)).1 (by decide)
  exact ⟨r, h1, h2⟩

/-- C19: `next_decision_variable_with_best_score` removes from the score structure
only entries whose variable is assigned: what it removes is a run of assigned
entries at the front, every unassigned variable of the structure is still in
it afterwards, the returned variable is `front ()` of the structure after the
call, nothing but the score structure changes, and when the front is already
unassigned the state is left as it is.  The call returns as soon as the
structure holds an unassigned variable. -/
theorem best_score_pops_assigned (s : Internal) :
    (∀ v s1, s.next_decision_variable_with_best_score = some (v, s1) →
      (∃ removed, s.scores = removed ++ s1.scores ∧ ∀ u ∈ removed, s.val u ≠ 0) ∧
      (∀ u ∈ s.scores, s.val u = 0 → u ∈ s1.scores) ∧
      s1.scores.head? = some v ∧
      s1 = { s with scores := s1.scores }) ∧
    (∀ x rest, s.scores = x :: rest → s.val x = 0 →
      s.next_decision_variable_with_best_score = some (x, s)) ∧
    ((∃ u ∈ s.scores, s.val u = 0) →
      ∃ v s1, s.next_decision_variable_with_best_score = some (v, s1)) := by
  refine ⟨?_, ?_, ?_⟩
  · intro v s1 h
    unfold Internal.next_decision_variable_with_best_score at h
    cases hl : best_score_loop s.vals s.scores with
    | none => simp [hl] at h
    | some p =>
      obtain ⟨res, rest⟩ := p
      simp only [hl, Option.some.injEq, Prod.mk.injEq] at h
      obtain ⟨h1, h2⟩ := h
      subst h1 h2
      obtain ⟨removed, tail, hsplit, hrest, hremoved, _⟩ :=
        best_score_loop_split s.vals s.scores res rest hl
      refine ⟨⟨removed, hsplit, hremoved⟩, ?_, ?_, rfl⟩
      · intro u hu hzero
        rw [hsplit] at hu
        rcases List.mem_append.mp hu with hu | hu
        · exact absurd hzero (hremoved u hu)
        · exact hu
      · show rest.head? = some res
        rw [hrest]
        rfl
  · intro x rest hscores hzero
    unfold Internal.next_decision_variable_with_best_score
    have hl : best_score_loop s.vals s.scores = some (x, s.scores) := by
      rw [hscores]
      unfold best_score_loop
      rw [if_pos (show s.vals x = 0 from hzero)]
    rw [hl]
  · intro hex
    obtain ⟨v, rest, hl⟩ := best_score_loop_some s.vals s.scores hex
    unfold Internal.next_decision_variable_with_best_score
    rw [hl]
    exact ⟨_, _, rfl⟩

/-- Witness of C19: in `score_state` the structure hands out 3, 1, 2 and variable 3
is assigned; the call returns 1 and leaves 1, 2 in the structure. -/
theorem best_score_pops_assigned_witness :
    ∃ s1, score_state.next_decision_variable_with_best_score = some (1, s1) ∧
      s1.scores = [1, 2] := by
  obtain ⟨v, s1, h1⟩ := (best_score_pops_assigned score_state).2.2 ⟨1, by decide, by decide⟩
  have hv : v = 1 := by
    have h := congrArg (Option.map Prod.fst) h1
    exact (Option.some.inj h).symm
  subst hv
  refine ⟨s1, h1, ?_⟩
  have h := congrArg (Option.map (fun p => p.2.scores)) h1
  exact (Option.some.inj h).symm

/-- C20: if every entry of the saved, target, best, prev and min tables is `-1`, `0`
or `1`, then for every variable `idx >= 1`, every target flag and every
configuration (chronological backtracking on or off, any `opts.chronophase`,
any force flags, any seed), `decide_phase (idx, target)` is `idx` or `-idx`: the
decision literal is never 0 and its variable is `idx`. -/
theorem decide_phase_literal (s : Internal) (idx : Int) (target : Bool)
    (htern : s.phases.ternary) (hidx : 1 ≤ idx) :
    (s.decide_phase idx target = idx ∨ s.decide_phase idx target = -idx) ∧
    s.decide_phase idx target ≠ 0 ∧
    ((s.decide_phase idx target).natAbs : Int) = idx := by
  have hsign := decide_phase_sign s idx target htern
  refine ⟨hsign, ?_, ?_⟩
  · rcases hsign with h | h <;> rw [h] <;> omega
  · rcases hsign with h | h <;> rw [h] <;> omega

/-- Witness of C20: `phase_state` with `opts.chronophase` set to 9, above all modes:
variable 3 is decided with the initial polarity, here negative. -/
theorem decide_phase_literal_witness :
    ({ phase_state with opts := ⟨0, 0, 9, 0, 0⟩ } : Internal).decide_phase 3 true = -3 ∧
    ({ phase_state with opts := ⟨0, 0, 9, 0, 0⟩ } : Internal).decide_phase 3 true ≠ 0 := by
  have h := decide_phase_literal { phase_state with opts := ⟨0, 0, 9, 0, 0⟩ } 3 true
    phase_state_ternary (by decide)
  exact ⟨by decide, h.2.1⟩

end CaDiCaL
